import Mathlib

/-!
Verification of the sudoku solver (`src/index.ts`).

The TypeScript source is shallowly embedded below.  A board (`Sudoku` in the
source) is a 9x9 grid of cells; a cell holds a digit or `null`.  Because the
runtime code never range-checks parsed digits (it only checks for `NaN`), a
cell is modelled as `Option Nat` rather than `Option (Fin 9)`: the value `0`
is representable, exactly as it is at runtime.  Mutation of cloned arrays
(`structuredClone` followed by an index assignment) is modelled as functional
update, and the unbounded recursion of `solve` is modelled with explicit fuel;
`solveFuel_stable` below shows that fuel `82` (one more than the maximal
number of empty cells) already computes the fixed point, so `solve` defined
with fuel `82` is the function computed by the source.
-/

namespace SudokuTS

/-- Cell = Numbers | null in the source; `none` is the empty cell. -/
abbrev Cell := Option Nat

/-- Coord = [Domain, Domain] with Domain = 0..8. -/
abbrev Coord := Fin 9 × Fin 9

/-- Sudoku = 9 rows of 9 cells, modelled as a function from coordinates. -/
abbrev Sudoku := Fin 9 → Fin 9 → Cell

/-- DELIMITER = " ". -/
def DELIMITER : Char := ' '

/-- The list [1, ..., 9] in insertion order of `ALL_NUMBERS` in the source;
spreading the JS `Set` yields exactly this ascending list. -/
def allNumbersList : List Nat := [1, 2, 3, 4, 5, 6, 7, 8, 9]

/-- ALL_NUMBERS as a set of numbers (used by `getOptionsForCoord`). -/
def ALL_NUMBERS : Finset Nat := allNumbersList.toFinset

/-- ALL_NUMBERS viewed as a set of cells (used by `checkFullBoard`, where the
same JS object is intersected with sets of cells). -/
def ALL_CELLS : Finset Cell := (allNumbersList.map some).toFinset

/-- compressContents: builds the set of values of the non-empty cells.  The
JS guard `if (item)` is truthiness, so both `null` and `0` are dropped. -/
def compressContents (initialContents : List Cell) : Finset Nat :=
  ((initialContents.filterMap id).filter (fun n => n != 0)).toFinset

/-- getRowContents: the 9 cells of the row of `coord`. -/
def getRowContents (board : Sudoku) (coord : Coord) : List Cell :=
  (List.finRange 9).map (fun j => board coord.1 j)

/-- transpose of the grid. -/
def transpose (board : Sudoku) : Sudoku := fun i j => board j i

/-- getColumnContents: row `coord.2` of the transposed grid. -/
def getColumnContents (board : Sudoku) (coord : Coord) : List Cell :=
  (List.finRange 9).map (fun j => transpose board coord.2 j)

/-- The coordinate of the `i`-th cell (block-relative row-major) of the 3x3
sub-grid containing `coord`: `(floor(r/3)*3 + i/3, floor(c/3)*3 + i%3)`. -/
def subGridCoord (coord : Coord) (i : Fin 9) : Coord :=
  (⟨coord.1.val / 3 * 3 + i.val / 3, by
      have h1 := coord.1.isLt; have h2 := i.isLt; omega⟩,
   ⟨coord.2.val / 3 * 3 + i.val % 3, by
      have h1 := coord.2.isLt; have h2 := i.isLt; omega⟩)

/-- getSubGridContents: the 9 cells of the 3x3 sub-grid of `coord`. -/
def getSubGridContents (board : Sudoku) (coord : Coord) : List Cell :=
  (List.finRange 9).map (fun i =>
    board (subGridCoord coord i).1 (subGridCoord coord i).2)

/-- getOptionsForCoord: `[...setDifference(ALL_NUMBERS, contents)]`.  The JS
spread of the filtered set preserves the insertion order 1..9, so the result
is the ascending filter of `[1..9]`. -/
def getOptionsForCoord (board : Sudoku) (coord : Coord) : List Nat :=
  let row := getRowContents board coord
  let col := getColumnContents board coord
  let sub := getSubGridContents board coord
  let contents := compressContents (row ++ col ++ sub)
  allNumbersList.filter (fun n => !(decide (n ∈ contents)))

/-- All 81 coordinates in the scan order of the source's nested loops
(row-major). -/
def coordsList : List Coord :=
  (List.finRange 9).flatMap (fun i => (List.finRange 9).map (fun j => (i, j)))

/-- getNextEmptyCoord: first coordinate (row-major) holding `null`. -/
def getNextEmptyCoord (board : Sudoku) : Option Coord :=
  coordsList.find? (fun c => board c.1 c.2 == none)

/-- Game = { solved: boolean; board: Sudoku }. -/
structure Game where
  solved : Bool
  board : Sudoku
  deriving DecidableEq

/-- Writing value `v` at coordinate `c` of a fresh clone of the board. -/
def setCell (board : Sudoku) (c : Coord) (v : Nat) : Sudoku :=
  fun i j => if i = c.1 ∧ j = c.2 then some v else board i j

/-- The candidate loop of `solve`: try each option in order on a clone of the
board, short-circuit on success, return the input game when exhausted (this
also covers the source's early `options.length === 0` return). -/
def tryOptions (f : Game → Game) (game : Game) (c : Coord) :
    List Nat → Game
  | [] => game
  | o :: rest =>
    let finalGame := f ⟨false, setCell game.board c o⟩
    if finalGame.solved then finalGame else tryOptions f game c rest

/-- solve, with explicit fuel for the recursion. -/
def solveFuel : Nat → Game → Game
  | 0, game => game
  | n + 1, game =>
    match getNextEmptyCoord game.board with
    | none => ⟨true, game.board⟩
    | some next => tryOptions (solveFuel n) game next
        (getOptionsForCoord game.board next)

/-- solve: fuel 82 always suffices (at most 81 empty cells; see
`solveFuel_stable`). -/
def solve (game : Game) : Game := solveFuel 82 game

/-- checkFullBoard: false when a cell is empty; otherwise, for each `i`,
intersects row `i`, column `i`, the sub-grid at `((i*3)%9, (i*3)%9)` and
ALL_NUMBERS and demands 9 elements. -/
def checkFullBoard (board : Sudoku) : Bool :=
  match getNextEmptyCoord board with
  | some _ => false
  | none =>
    (List.finRange 9).all (fun i =>
      let diag : Fin 9 := ⟨i.val * 3 % 9, by omega⟩
      let row := getRowContents board (i, 0)
      let col := getColumnContents board (0, i)
      let sub := getSubGridContents board (diag, diag)
      let rowAndCol := row.toFinset ∩ col.toFinset
      let andSub := sub.toFinset ∩ rowAndCol
      let intersect := ALL_CELLS ∩ andSub
      intersect.card == 9)

/-- Rendering of one cell by `prettyPrint`: `"* "` for empty, otherwise the
decimal string of the digit followed by a space. -/
def renderCell (c : Cell) : List Char :=
  match c with
  | none => ['*', ' ']
  | some n => (toString n).toList ++ [' ']

/-- prettyPrint: the text written to the console, one line (terminated by a
line break) per row. -/
def prettyPrint (board : Sudoku) : List Char :=
  ((List.finRange 9).map (fun i =>
    ((List.finRange 9).map (fun j => renderCell (board i j))).flatten
      ++ ['\n'])).flatten

/-- JS `content.split(sep)` for a one-character separator. -/
def splitOnChar (sep : Char) : List Char → List (List Char)
  | [] => [[]]
  | ch :: rest =>
    let r := splitOnChar sep rest
    if ch = sep then [] :: r
    else
      match r with
      | [] => [[ch]]
      | x :: xs => (ch :: x) :: xs

/-- Parsing of one character of a line: `Number.parseInt(char)` yields a
number (not NaN) exactly for the ASCII digits 0-9; otherwise the delimiter
check runs, and any other character throws. -/
def parseCellChar (ch : Char) : Except String Cell :=
  if ch.isDigit then .ok (some (ch.toNat - 48))
  else if ch = DELIMITER then .ok none
  else .error "File contained non-numeric, non-delimiter character"

/-- parseGame on the file contents (the file read itself is I/O glue): split
on the platform line break, drop the last piece (`slice(0, -1)`), require 9
lines of 9 characters, parse each character.  The checked 9x9 list of lists
is read back as a function grid. -/
def parseGame (content : List Char) : Except String Sudoku := do
  let lines := (splitOnChar '\n' content).dropLast
  if lines.length ≠ 9 then
    throw "File did not contain exactly 9 lines"
  else
    let rows ← lines.mapM (fun line => do
      if line.length ≠ 9 then
        throw "File contained a line without exactly 9 characters"
      else
        line.mapM parseCellChar)
    pure (fun i j => (((rows.get? i.val).bind (fun r => r.get? j.val)).getD none))

/-- Outcome printed by `main` after the original board. -/
inductive Verdict where
  | PRESOLVED
  | SOLVED
  | UNSOLVABLE
  deriving DecidableEq

/-- The decision logic of `main` on a parsed board: pre-solved boards skip
the solver, otherwise the solver's flag picks SOLVED or UNSOLVABLE. -/
def mainVerdict (board : Sudoku) : Verdict :=
  if checkFullBoard board then .PRESOLVED
  else if (solve ⟨false, board⟩).solved then .SOLVED
  else .UNSOLVABLE

/-! ### Specification-side notions

These definitions render the spec's vocabulary (valid solution, extension of
a board, count of empty cells, well-formed board) so the claims can be
stated; they are not part of the source embedding. -/

/-- Equality of `Except` results, computed without `Eq.rec` so that `decide`
can evaluate it in the kernel. -/
instance {ε α : Type} [DecidableEq ε] [DecidableEq α] :
    DecidableEq (Except ε α) := fun x y =>
  match x, y with
  | .ok a, .ok b => decidable_of_iff (a = b)
      ⟨fun h => congrArg Except.ok h, fun h => by cases h; rfl⟩
  | .error a, .error b => decidable_of_iff (a = b)
      ⟨fun h => congrArg Except.error h, fun h => by cases h; rfl⟩
  | .ok _, .error _ => isFalse (fun h => Except.noConfusion h)
  | .error _, .ok _ => isFalse (fun h => Except.noConfusion h)

/-- A region (list of 9 cells) is a permutation of the digits 1-9: the
multiset of its non-empty values is exactly {1, ..., 9}. -/
def regionIsPerm (l : List Cell) : Bool :=
  decide ((l.filterMap id : Multiset Nat) = (allNumbersList : Multiset Nat))

/-- A board is a valid complete solution: all 27 regions — the 9 rows, the 9
columns and the 9 sub-grids (represented by the coordinates
`(3*(i/3), 3*(i%3))` for `i = 0..8`) — are permutations of 1-9. -/
def validSolution (b : Sudoku) : Bool :=
  (List.finRange 9).all (fun i =>
    regionIsPerm (getRowContents b (i, 0)) &&
    regionIsPerm (getColumnContents b (0, i)) &&
    regionIsPerm (getSubGridContents b
      (⟨i.val / 3 * 3, by have := i.isLt; omega⟩,
       ⟨i.val % 3 * 3, by have := i.isLt; omega⟩)))

/-- Board `b'` extends board `b`: every originally-filled cell is unchanged. -/
def Extends (b b' : Sudoku) : Prop :=
  ∀ i j : Fin 9, b i j ≠ none → b' i j = b i j

instance : ∀ b b', Decidable (Extends b b') := fun _ _ =>
  inferInstanceAs (Decidable (∀ _ _, _ → _))

/-- Count of empty cells of a board. -/
def emptyCount (b : Sudoku) : Nat :=
  (Finset.univ.filter (fun c : Coord => b c.1 c.2 = none)).card

/-- A single cell respects the data-model invariant: empty or a digit 1-9. -/
def cellOK : Cell → Bool
  | none => true
  | some d => 1 ≤ d && d ≤ 9

/-- A board respects the data-model invariant on every cell. -/
def WellFormed (b : Sudoku) : Prop :=
  ∀ c : Coord, cellOK (b c.1 c.2) = true

instance : ∀ b, Decidable (WellFormed b) := fun _ =>
  inferInstanceAs (Decidable (∀ _, _))

/-! ### Concrete test fixtures -/

/-- Reads a 9x9 list-of-lists literal as a board, `0` denoting empty. -/
def mkBoard (l : List (List Nat)) : Sudoku := fun i j =>
  (((l.get? i.val).bind (fun r => r.get? j.val)).bind
    (fun n => if n = 0 then none else some n))

/-- A full board whose 9 rows, 9 columns and 3 diagonal sub-grids are all
permutations of 1-9, but whose sub-grid at rows 0-2, columns 3-5 contains
the digit 9 twice (and no 5). -/
def B0 : Sudoku := mkBoard [
  [1,2,3, 9,6,4, 5,7,8],
  [4,5,6, 3,9,2, 8,1,7],
  [7,8,9, 2,3,1, 6,4,5],
  [5,7,8, 1,2,3, 9,6,4],
  [8,1,7, 4,5,6, 3,9,2],
  [6,4,5, 7,8,9, 2,3,1],
  [9,6,4, 5,7,8, 1,2,3],
  [3,9,2, 8,1,7, 4,5,6],
  [2,3,1, 6,4,5, 7,8,9]]

/-- A board whose first empty cell, (0,8), has an empty candidate set: row 0
already holds 1-8 and column 8 already holds 9. -/
def deadB : Sudoku := mkBoard [
  [1,2,3, 4,5,6, 7,8,0],
  [0,0,0, 0,0,0, 0,0,9],
  [0,0,0, 0,0,0, 0,0,0],
  [0,0,0, 0,0,0, 0,0,0],
  [0,0,0, 0,0,0, 0,0,0],
  [0,0,0, 0,0,0, 0,0,0],
  [0,0,0, 0,0,0, 0,0,0],
  [0,0,0, 0,0,0, 0,0,0],
  [0,0,0, 0,0,0, 0,0,0]]

/-- The board with every cell empty. -/
def emptyB : Sudoku := fun _ _ => none

/-- The full board with every cell 1 (complete but far from valid). -/
def fullOnes : Sudoku := fun _ _ => some 1

/-- File contents of nine 9-character lines, the first beginning with the
character `0`. -/
def content0 : List Char :=
  ("012345678\n123456789\n123456789\n123456789\n123456789\n" ++
   "123456789\n123456789\n123456789\n123456789\n").toList

/-- The board that `parseGame` actually produces from `content0` — note the
out-of-range cell value 0 at (0,0). -/
def parsed0 : Sudoku := fun i j => if i = 0 then some j.val else some (j.val + 1)

/-- Board with the digit 5 at (0,0) and (0,1) and every other cell empty. -/
def twoFives : Sudoku :=
  fun i j => if i = 0 ∧ (j = 0 ∨ j = 1) then some 5 else none

/-- The canonical fully-solved board: row `i` is the cyclic shift of 1..9 by
`3*(i%3) + i/3`. -/
def canonical : Sudoku :=
  fun i j => some ((3 * (i.val % 3) + i.val / 3 + j.val) % 9 + 1)

/-- The canonical solution with cell (0,0) removed: a solvable puzzle. -/
def canonicalMinus : Sudoku :=
  fun i j => if i = 0 ∧ j = 0 then none else canonical i j

/-- Strict lexicographic order on coordinates: first by row, then column. -/
def lexLt (a b : Coord) : Prop :=
  a.1 < b.1 ∨ (a.1 = b.1 ∧ a.2 < b.2)

instance : ∀ a b, Decidable (lexLt a b) := fun _ _ =>
  inferInstanceAs (Decidable (_ ∨ _))

/-- The characters of row `i` of the rendered board, line break excluded. -/
def renderRow (b : Sudoku) (i : Fin 9) : List Char :=
  ((List.finRange 9).map (fun j => renderCell (b i j))).flatten

/-- Two coordinates share a row. -/
def sameRow (a b : Coord) : Prop := a.1 = b.1

/-- Two coordinates share a column. -/
def sameCol (a b : Coord) : Prop := a.2 = b.2

/-- Two coordinates lie in the same 3x3 sub-grid. -/
def sameSub (a b : Coord) : Prop :=
  a.1.val / 3 = b.1.val / 3 ∧ a.2.val / 3 = b.2.val / 3

/-- Two coordinates lie in a common region (row, column or sub-grid). -/
def sameRegion (a b : Coord) : Prop := sameRow a b ∨ sameCol a b ∨ sameSub a b

/-- Block-relative index of a coordinate inside its own sub-grid, inverse to
`subGridCoord`. -/
def subGridIdx (c : Coord) : Fin 9 :=
  ⟨c.1.val % 3 * 3 + c.2.val % 3, by
    have h1 := c.1.isLt; have h2 := c.2.isLt; omega⟩

/-- What a successful run of the solver guarantees about its output board
relative to its input board: the output is full, extends the input, fills
empties with digits 1-9, and any two distinct cells of a common region at
least one of which was originally empty hold different values.  Cells that
were both originally filled are NOT constrained — the solver never
re-examines given digits. -/
structure SolveSound (b b' : Sudoku) : Prop where
  full : ∀ c : Coord, b' c.1 c.2 ≠ none
  ext : Extends b b'
  vals : ∀ c : Coord, b c.1 c.2 = none →
    ∃ d, b' c.1 c.2 = some d ∧ d ∈ allNumbersList
  distinct : ∀ a c : Coord, a ≠ c → sameRegion a c →
    (b a.1 a.2 = none ∨ b c.1 c.2 = none) → b' a.1 a.2 ≠ b' c.1 c.2

/-! ### Basic lemmas about the scan order -/

lemma mem_coordsList : ∀ c : Coord, c ∈ coordsList := by decide

lemma getNextEmptyCoord_eq_none_iff (b : Sudoku) :
    getNextEmptyCoord b = none ↔ ∀ c : Coord, b c.1 c.2 ≠ none := by
  unfold getNextEmptyCoord
  rw [List.find?_eq_none]
  constructor
  · intro h c hc
    have := h c (mem_coordsList c)
    simp [hc] at this
  · intro h x _
    simp [h x]

lemma solveFuel_full (n : Nat) (g : Game)
    (hn : getNextEmptyCoord g.board = none) :
    solveFuel (n + 1) g = ⟨true, g.board⟩ := by
  simp [solveFuel, hn]

lemma find?_eq_some_first {α : Type} (p : α → Bool) :
    ∀ (l : List α) (a : α), l.find? p = some a →
      ∃ l1 l2, l = l1 ++ a :: l2 ∧ ∀ x ∈ l1, p x = false := by
  intro l
  induction l with
  | nil => intro a h; simp at h
  | cons x xs ih =>
    intro a h
    cases hpx : p x with
    | true =>
      rw [List.find?_cons_of_pos _ hpx] at h
      injection h with h'
      subst h'
      exact ⟨[], xs, rfl, by simp⟩
    | false =>
      rw [List.find?_cons_of_neg _ (by simp [hpx])] at h
      obtain ⟨l1, l2, rfl, hl1⟩ := ih a h
      refine ⟨x :: l1, l2, rfl, ?_⟩
      intro y hy
      rcases List.mem_cons.mp hy with rfl | hy
      · exact hpx
      · exact hl1 y hy

lemma coordsList_pairwise : coordsList.Pairwise lexLt := by decide

/-! ### Claims -/

/-- Claim C1.  The claim states that `checkFullBoard` returns true iff all
27 regions are permutations of 1-9.  The code only checks the three diagonal
sub-grids (the sub-grid coordinate is `((i*3)%9, (i*3)%9)`, which cycles
through (0,0), (3,3), (6,6)), so the full board `B0`, whose sub-grid at
rows 0-2, columns 3-5 holds two 9s, passes `checkFullBoard` even though it
is not a valid solution. -/
theorem sudoku_C1 :
    checkFullBoard B0 = true ∧
    validSolution B0 = false ∧
    regionIsPerm (getSubGridContents B0 (0, 3)) = false := by decide

/-- Claim C2.  The claim states that any character other than the digits 1-9
and the blank marker — `'0'` in particular — raises a parse error.  In the
code `Number.parseInt('0')` is `0`, not `NaN`, so `'0'` is accepted and
produces the out-of-range cell value 0: on `content0` (nine 9-character
lines, first character `'0'`) `parseGame` succeeds and the resulting board
holds `some 0` at (0,0). -/
theorem sudoku_C2 :
    parseGame content0 = .ok parsed0 ∧ parsed0 0 0 = some 0 := by decide

/-- Claim C5.  On a board with no empty cell, `solve` immediately returns
the board unchanged with `solved: true`, whatever its validity; hence a
complete board rejected by `checkFullBoard` makes `main` print SOLVED. -/
theorem sudoku_C5 (b : Sudoku) (h : ∀ c : Coord, b c.1 c.2 ≠ none) :
    solve ⟨false, b⟩ = ⟨true, b⟩ ∧
    (checkFullBoard b = false → mainVerdict b = .SOLVED) := by
  have hn : getNextEmptyCoord b = none := (getNextEmptyCoord_eq_none_iff b).mpr h
  have h1 : solve ⟨false, b⟩ = ⟨true, b⟩ := solveFuel_full 81 ⟨false, b⟩ hn
  refine ⟨h1, fun hc => ?_⟩
  simp [mainVerdict, hc, h1]

/-- Witness for C5: the all-ones board is complete, fails `checkFullBoard`,
and is still returned as SOLVED. -/
theorem sudoku_C5_witness :
    solve ⟨false, fullOnes⟩ = ⟨true, fullOnes⟩ ∧
    mainVerdict fullOnes = .SOLVED := by
  have h := sudoku_C5 fullOnes (by decide)
  exact ⟨h.1, h.2 (by decide)⟩

/-- Claim C10.  `getNextEmptyCoord` returns the lexicographically smallest
(row first, then column) empty coordinate, and `none` exactly when the board
has no empty cell. -/
theorem sudoku_C10 (b : Sudoku) :
    (∀ c, getNextEmptyCoord b = some c →
      b c.1 c.2 = none ∧
      ∀ c' : Coord, b c'.1 c'.2 = none →
        c.1 < c'.1 ∨ (c.1 = c'.1 ∧ c.2 ≤ c'.2)) ∧
    (getNextEmptyCoord b = none ↔ ∀ c : Coord, b c.1 c.2 ≠ none) := by
  refine ⟨?_, getNextEmptyCoord_eq_none_iff b⟩
  intro c hc
  have hempty : b c.1 c.2 = none := by
    have := List.find?_some hc
    simpa using this
  refine ⟨hempty, ?_⟩
  intro c' hc'
  obtain ⟨l1, l2, hdec, hl1⟩ := find?_eq_some_first _ coordsList c hc
  have hmem : c' ∈ coordsList := mem_coordsList c'
  rw [hdec] at hmem
  rcases List.mem_append.mp hmem with hin1 | hin2
  · exact absurd (hl1 c' hin1) (by simp [hc'])
  · rcases List.mem_cons.mp hin2 with rfl | hin2
    · exact Or.inr ⟨rfl, le_refl _⟩
    · have hp := coordsList_pairwise
      rw [hdec] at hp
      have hp2 := (List.pairwise_append.mp hp).2.1
      have := (List.pairwise_cons.mp hp2).1 c' hin2
      rcases this with h | ⟨heq, hlt⟩
      · exact Or.inl h
      · exact Or.inr ⟨heq, le_of_lt hlt⟩

/-- Witness for C10: on `deadB` the first empty coordinate is (0,8); it is
empty and lexicographically no larger than the empty cell (5,5). -/
theorem sudoku_C10_witness :
    deadB 0 8 = none ∧
    ((0 : Fin 9) < 5 ∨ ((0 : Fin 9) = 5 ∧ (8 : Fin 9) ≤ 5)) := by
  have h := (sudoku_C10 deadB).1 (0, 8) (by decide)
  exact ⟨h.1, h.2 (5, 5) (by decide)⟩

lemma mem_allNumbersList (n : Nat) : n ∈ allNumbersList ↔ 1 ≤ n ∧ n ≤ 9 := by
  simp [allNumbersList]
  omega

lemma mem_compressContents (l : List Cell) (n : Nat) :
    n ∈ compressContents l ↔ some n ∈ l ∧ n ≠ 0 := by
  simp [compressContents, List.mem_filter, List.mem_filterMap]

lemma mem_getOptionsForCoord (b : Sudoku) (c : Coord) (n : Nat) :
    n ∈ getOptionsForCoord b c ↔
      ((1 ≤ n ∧ n ≤ 9) ∧
        ¬(some n ∈ getRowContents b c ∨ some n ∈ getColumnContents b c ∨
          some n ∈ getSubGridContents b c)) := by
  unfold getOptionsForCoord
  rw [List.mem_filter, mem_allNumbersList]
  simp only [Bool.not_eq_eq_eq_not, Bool.not_true, decide_eq_false_iff_not,
    mem_compressContents, List.mem_append]
  constructor
  · rintro ⟨hn, hno⟩
    exact ⟨hn, fun hmem => hno ⟨by tauto, by omega⟩⟩
  · rintro ⟨hn, hno⟩
    refine ⟨hn, fun hmem => hno ?_⟩
    tauto

/-- Claim C9.  For an empty coordinate, `getOptionsForCoord` returns exactly
the digits of 1-9 absent from the cell's row, column and sub-grid, in
ascending order without duplicates. -/
theorem sudoku_C9 (b : Sudoku) (c : Coord) (h : b c.1 c.2 = none) :
    (∀ n : Nat, n ∈ getOptionsForCoord b c ↔
      ((1 ≤ n ∧ n ≤ 9) ∧
        ¬(some n ∈ getRowContents b c ∨ some n ∈ getColumnContents b c ∨
          some n ∈ getSubGridContents b c))) ∧
    (getOptionsForCoord b c).Sorted (· < ·) ∧
    (getOptionsForCoord b c).Nodup := by
  refine ⟨mem_getOptionsForCoord b c, ?_, ?_⟩
  · exact List.Pairwise.filter _ (by decide : allNumbersList.Sorted (· < ·))
  · exact List.Nodup.filter _ (by decide : allNumbersList.Nodup)

lemma setCell_same (b : Sudoku) (c : Coord) (v : Nat) :
    setCell b c v c.1 c.2 = some v := by
  simp [setCell]

lemma setCell_other (b : Sudoku) (c : Coord) (v : Nat) (i j : Fin 9)
    (h : ¬(i = c.1 ∧ j = c.2)) : setCell b c v i j = b i j := by
  simp only [setCell, if_neg h]

lemma getNextEmptyCoord_some_empty (b : Sudoku) (c : Coord)
    (h : getNextEmptyCoord b = some c) : b c.1 c.2 = none := by
  have := List.find?_some h
  simpa using this

lemma emptyCount_setCell_lt (b : Sudoku) (c : Coord) (v : Nat)
    (h : b c.1 c.2 = none) :
    emptyCount (setCell b c v) < emptyCount b := by
  apply Finset.card_lt_card
  rw [Finset.ssubset_def]
  constructor
  · intro d hd
    rw [Finset.mem_filter] at hd ⊢
    refine ⟨Finset.mem_univ _, ?_⟩
    by_cases hdc : d.1 = c.1 ∧ d.2 = c.2
    · exfalso
      have h2 := hd.2
      rw [setCell, if_pos hdc] at h2
      cases h2
    · have h2 := hd.2
      rwa [setCell_other _ _ _ _ _ hdc] at h2
  · intro hsub
    have hc : c ∈ Finset.univ.filter (fun d : Coord => b d.1 d.2 = none) := by
      simp [h]
    have hmem := hsub hc
    rw [Finset.mem_filter] at hmem
    have h2 := hmem.2
    rw [setCell_same] at h2
    cases h2

lemma emptyCount_le_81 (b : Sudoku) : emptyCount b ≤ 81 := by
  calc emptyCount b ≤ (Finset.univ : Finset Coord).card :=
        Finset.card_filter_le _ _
    _ = 81 := by simp

lemma emptyCount_eq_zero_of_no_empty (b : Sudoku)
    (h : getNextEmptyCoord b = none) : emptyCount b = 0 := by
  rw [getNextEmptyCoord_eq_none_iff] at h
  unfold emptyCount
  rw [Finset.card_eq_zero, Finset.filter_eq_empty_iff]
  intro c _
  exact h c

lemma tryOptions_congr (f f' : Game → Game) (g : Game) (c : Coord)
    (opts : List Nat)
    (hff : ∀ o ∈ opts, f ⟨false, setCell g.board c o⟩ =
      f' ⟨false, setCell g.board c o⟩) :
    tryOptions f g c opts = tryOptions f' g c opts := by
  induction opts with
  | nil => rfl
  | cons o rest ih =>
    simp only [tryOptions]
    rw [hff o (List.mem_cons_self o rest)]
    exact if_congr Iff.rfl rfl (ih (fun o' ho' => hff o' (List.mem_cons_of_mem o ho')))

lemma solveFuel_stable :
    ∀ (k n m : Nat) (g : Game), emptyCount g.board < n →
      emptyCount g.board < m → emptyCount g.board ≤ k →
      solveFuel n g = solveFuel m g := by
  intro k
  induction k with
  | zero =>
    intro n m g hn hm hk
    match n, m with
    | n' + 1, m' + 1 =>
      have h0 : emptyCount g.board = 0 := Nat.le_zero.mp hk
      have hne : getNextEmptyCoord g.board = none := by
        rw [getNextEmptyCoord_eq_none_iff]
        intro c hc
        have : c ∈ Finset.univ.filter (fun d : Coord => g.board d.1 d.2 = none) := by
          simp [hc]
        rw [Finset.card_eq_zero.mp h0] at this
        cases this
      rw [solveFuel_full n' g hne, solveFuel_full m' g hne]
  | succ k ih =>
    intro n m g hn hm hk
    match n, m with
    | n' + 1, m' + 1 =>
      simp only [solveFuel]
      cases hc : getNextEmptyCoord g.board with
      | none => rfl
      | some c =>
        apply tryOptions_congr
        intro o _
        have hce : g.board c.1 c.2 = none := getNextEmptyCoord_some_empty _ _ hc
        have hdec : emptyCount (setCell g.board c o) < emptyCount g.board :=
          emptyCount_setCell_lt _ _ _ hce
        exact ih n' m' ⟨false, setCell g.board c o⟩
          (by simp only; omega) (by simp only; omega) (by simp only; omega)

/-- Claim C7.  Every recursive call of `solve` works on a board with strictly
fewer empty cells, and fuel 82 (depth at most 81 plus the terminal step)
already computes the solver's value: any larger fuel yields the same result. -/
theorem sudoku_C7 :
    (∀ (b : Sudoku) (c : Coord) (v : Nat), getNextEmptyCoord b = some c →
      emptyCount (setCell b c v) < emptyCount b) ∧
    (∀ (g : Game) (n : Nat), 81 < n → solveFuel n g = solve g) := by
  constructor
  · intro b c v h
    exact emptyCount_setCell_lt b c v (getNextEmptyCoord_some_empty b c h)
  · intro g n hn
    have h81 := emptyCount_le_81 g.board
    exact solveFuel_stable 81 n 82 g (by omega) (by omega) h81

/-- Witness for C7: filling (0,0) of the empty board drops the empty count,
and fuel 83 computes the same result as `solve` on a concrete game. -/
theorem sudoku_C7_witness :
    emptyCount (setCell emptyB (0, 0) 5) < emptyCount emptyB ∧
    solveFuel 83 ⟨false, deadB⟩ = solve ⟨false, deadB⟩ :=
  ⟨sudoku_C7.1 emptyB (0, 0) 5 (by decide),
   sudoku_C7.2 ⟨false, deadB⟩ 83 (by decide)⟩

lemma tryOptions_cases (f : Game → Game) (g : Game) (c : Coord)
    (opts : List Nat) :
    tryOptions f g c opts = g ∨ (tryOptions f g c opts).solved = true := by
  induction opts with
  | nil => exact Or.inl rfl
  | cons o rest ih =>
    simp only [tryOptions]
    cases hs : (f ⟨false, setCell g.board c o⟩).solved with
    | true => right; simp [hs]
    | false => simpa [hs] using ih

lemma solveFuel_cases (n : Nat) (g : Game) :
    solveFuel n g = g ∨ (solveFuel n g).solved = true := by
  match n with
  | 0 => exact Or.inl rfl
  | n' + 1 =>
    simp only [solveFuel]
    cases hc : getNextEmptyCoord g.board with
    | none => exact Or.inr rfl
    | some c => exact tryOptions_cases _ _ _ _

/-- Claim C8.  `solve` is a pure function of its (copied) input, and whenever
it fails — empty candidate set or exhausted candidates — it returns exactly
the input state, unchanged, with `solved: false`. -/
theorem sudoku_C8 (b : Sudoku) (h : (solve ⟨false, b⟩).solved = false) :
    solve ⟨false, b⟩ = ⟨false, b⟩ := by
  rcases solveFuel_cases 82 ⟨false, b⟩ with heq | hs
  · exact heq
  · have : (solve ⟨false, b⟩).solved = true := hs
    rw [h] at this
    cases this

/-- Witness for C8: on `deadB` (whose first empty cell has no candidates)
the solver fails and returns the input game bit for bit. -/
theorem sudoku_C8_witness :
    (solve ⟨false, deadB⟩).solved = false ∧
    solve ⟨false, deadB⟩ = ⟨false, deadB⟩ := by
  have h : (solve ⟨false, deadB⟩).solved = false := by decide
  exact ⟨h, sudoku_C8 deadB h⟩

/-- Witness for C9: instantiated on the board `deadB` at its empty cell
(0,8). -/
theorem sudoku_C9_witness :
    (∀ n : Nat, n ∈ getOptionsForCoord deadB (0, 8) ↔
      ((1 ≤ n ∧ n ≤ 9) ∧
        ¬(some n ∈ getRowContents deadB (0, 8) ∨
          some n ∈ getColumnContents deadB (0, 8) ∨
          some n ∈ getSubGridContents deadB (0, 8)))) ∧
    (getOptionsForCoord deadB (0, 8)).Sorted (· < ·) ∧
    (getOptionsForCoord deadB (0, 8)).Nodup :=
  sudoku_C9 deadB (0, 8) (by decide)

lemma splitOnChar_append_sep (sep : Char) (line rest : List Char)
    (h : sep ∉ line) :
    splitOnChar sep (line ++ sep :: rest) = line :: splitOnChar sep rest := by
  induction line with
  | nil => simp [splitOnChar]
  | cons ch line ih =>
    have hch : ch ≠ sep := fun hc => h (hc ▸ List.mem_cons_self ch line)
    have htl : sep ∉ line := fun hm => h (List.mem_cons_of_mem ch hm)
    simp only [List.cons_append, splitOnChar, if_neg hch, List.append_eq,
      ih htl]

lemma splitOnChar_flatten (sep : Char) (lines : List (List Char))
    (h : ∀ l ∈ lines, sep ∉ l) :
    splitOnChar sep ((lines.map (· ++ [sep])).flatten) = lines ++ [[]] := by
  induction lines with
  | nil => simp [splitOnChar]
  | cons l ls ih =>
    have hl : sep ∉ l := h l (List.mem_cons_self l ls)
    have hls : ∀ x ∈ ls, sep ∉ x := fun x hx => h x (List.mem_cons_of_mem l hx)
    simp only [List.map_cons, List.flatten_cons, List.append_assoc,
      List.singleton_append]
    rw [splitOnChar_append_sep sep l _ hl, ih hls]
    rfl

lemma renderCell_length (c : Cell) (h : cellOK c = true) :
    (renderCell c).length = 2 := by
  cases c with
  | none => rfl
  | some d =>
    simp only [cellOK, Bool.and_eq_true, decide_eq_true_eq] at h
    obtain ⟨h1, h2⟩ := h
    interval_cases d <;> decide

lemma renderCell_no_newline (c : Cell) (h : cellOK c = true) :
    '\n' ∉ renderCell c := by
  cases c with
  | none => decide
  | some d =>
    simp only [cellOK, Bool.and_eq_true, decide_eq_true_eq] at h
    obtain ⟨h1, h2⟩ := h
    interval_cases d <;> decide

lemma prettyPrint_eq_flatten (b : Sudoku) :
    prettyPrint b =
      (((List.finRange 9).map (renderRow b)).map (· ++ ['\n'])).flatten := by
  unfold prettyPrint renderRow
  rw [List.map_map]
  rfl

lemma renderRow_length (b : Sudoku) (h : WellFormed b) (i : Fin 9) :
    (renderRow b i).length = 18 := by
  unfold renderRow
  rw [List.length_flatten, List.map_map]
  have hall : ∀ j ∈ List.finRange 9,
      (List.length ∘ fun j => renderCell (b i j)) j = (fun _ => 2) j := by
    intro j _
    exact renderCell_length _ (h (i, j))
  rw [List.map_congr_left hall, List.map_const']
  simp

lemma renderRow_no_newline (b : Sudoku) (h : WellFormed b) (i : Fin 9) :
    '\n' ∉ renderRow b i := by
  unfold renderRow
  rw [List.mem_flatten]
  rintro ⟨l, hl, hmem⟩
  rw [List.mem_map] at hl
  obtain ⟨j, _, rfl⟩ := hl
  exact renderCell_no_newline _ (h (i, j)) hmem

lemma mapM_error_of_head {ε α β : Type} (f : α → Except ε β) (e : ε) :
    ∀ (ls : List α), ls ≠ [] → (∀ l ∈ ls, f l = .error e) →
      ls.mapM f = .error e := by
  intro ls hne hall
  match ls with
  | l :: rest =>
    rw [List.mapM_cons, hall l (List.mem_cons_self l rest)]
    rfl

/-- Claim C4, amended.  Re-parsing the output of `prettyPrint` never
reproduces the board: each rendered line has 18 characters (a digit or `*`
plus a space per cell), so `parseGame` always fails with the line-length
error. -/
theorem sudoku_C4_amended (b : Sudoku) (h : WellFormed b) :
    parseGame (prettyPrint b) =
      .error "File contained a line without exactly 9 characters" := by
  unfold parseGame
  rw [prettyPrint_eq_flatten b,
    splitOnChar_flatten '\n' _ (by
      intro l hl
      rw [List.mem_map] at hl
      obtain ⟨i, _, rfl⟩ := hl
      exact renderRow_no_newline b h i),
    List.dropLast_concat]
  have hlen : ((List.finRange 9).map (renderRow b)).length = 9 := by simp
  rw [if_neg (by omega)]
  rw [mapM_error_of_head _ _ _ (by simp)
    (by
      intro l hl
      rw [List.mem_map] at hl
      obtain ⟨i, _, rfl⟩ := hl
      rw [if_pos (by rw [renderRow_length b h i]; omega)]
      rfl)]
  rfl

/-- Witness for the amended C4: the well-formed board `B0` rendered and
re-parsed yields the line-length parse error. -/
theorem sudoku_C4_witness :
    parseGame (prettyPrint B0) =
      .error "File contained a line without exactly 9 characters" :=
  sudoku_C4_amended B0 (by decide)

/-- Counterexample to C4 as stated: rendering the empty board and re-parsing
does not return the original board (it raises a parse error), refuting the
claimed round-trip at a concrete input. -/
theorem sudoku_C4_counterexample :
    parseGame (prettyPrint emptyB) ≠ .ok emptyB ∧
    parseGame (prettyPrint emptyB) =
      .error "File contained a line without exactly 9 characters" := by decide

/-! ### Coordinate arithmetic for sub-grids -/

lemma subGridCoord_self (c : Coord) : subGridCoord c (subGridIdx c) = c := by
  have h1 := c.1.isLt
  have h2 := c.2.isLt
  unfold subGridCoord subGridIdx
  refine Prod.ext ?_ ?_ <;> apply Fin.ext <;> simp only [] <;> omega

lemma sameSub_subGridCoord (c : Coord) (k : Fin 9) :
    sameSub (subGridCoord c k) c := by
  have h1 := c.1.isLt
  have h2 := c.2.isLt
  have h3 := k.isLt
  unfold sameSub subGridCoord
  constructor <;> simp only [] <;> omega

lemma subGridCoord_congr {c c' : Coord} (h : sameSub c c') (k : Fin 9) :
    subGridCoord c k = subGridCoord c' k := by
  obtain ⟨ha, hb⟩ := h
  unfold subGridCoord
  refine Prod.ext ?_ ?_ <;> apply Fin.ext <;> simp only [] <;> omega

lemma subGridCoord_inj (c : Coord) {k k' : Fin 9}
    (h : subGridCoord c k = subGridCoord c k') : k = k' := by
  have h3 := k.isLt
  have h4 := k'.isLt
  unfold subGridCoord at h
  rw [Prod.ext_iff] at h
  obtain ⟨ha, hb⟩ := h
  have ha' := congrArg Fin.val ha
  have hb' := congrArg Fin.val hb
  simp only [] at ha' hb'
  apply Fin.ext
  omega

lemma sameSub_symm {c c' : Coord} (h : sameSub c c') : sameSub c' c :=
  ⟨h.1.symm, h.2.symm⟩

lemma sameRegion_symm {c c' : Coord} (h : sameRegion c c') : sameRegion c' c := by
  rcases h with h | h | h
  · exact Or.inl h.symm
  · exact Or.inr (Or.inl h.symm)
  · exact Or.inr (Or.inr (sameSub_symm h))

/-! ### Regions that are permutations of 1-9 -/

lemma length_filterMap_lt_of_none (l : List Cell) (h : none ∈ l) :
    (l.filterMap id).length < l.length := by
  induction l with
  | nil => cases h
  | cons x xs ih =>
    cases x with
    | none =>
      have heq : ((none :: xs : List Cell).filterMap id) = xs.filterMap id := by
        simp
      rw [heq, List.length_cons]
      exact Nat.lt_succ_of_le (List.length_filterMap_le id xs)
    | some v =>
      have hmem : none ∈ xs := by
        rcases List.mem_cons.mp h with h' | h'
        · cases h'
        · exact h'
      have heq : ((some v :: xs : List Cell).filterMap id) =
          v :: xs.filterMap id := by simp
      rw [heq, List.length_cons, List.length_cons]
      exact Nat.succ_lt_succ (ih hmem)

lemma eq_map_some_of_no_none (l : List Cell) (h : none ∉ l) :
    l = (l.filterMap id).map some := by
  induction l with
  | nil => rfl
  | cons x xs ih =>
    cases x with
    | none => exact absurd (List.mem_cons_self _ _) h
    | some v =>
      have htl : none ∉ xs := fun hm => h (List.mem_cons_of_mem _ hm)
      have heq : ((some v :: xs : List Cell).filterMap id) =
          v :: xs.filterMap id := by simp
      rw [heq, List.map_cons]
      exact congrArg _ (ih htl)

lemma regionIsPerm_perm (l : List Cell) (h : regionIsPerm l = true) :
    (l.filterMap id).Perm allNumbersList := by
  unfold regionIsPerm at h
  rw [decide_eq_true_eq] at h
  exact Multiset.coe_eq_coe.mp h

/-- From a region permutation fact, every cell of the region holds a digit
1-9 and no two positions hold the same cell value. -/
lemma region_ok (g : Fin 9 → Cell)
    (h : regionIsPerm ((List.finRange 9).map g) = true) :
    (∀ j, ∃ v, g j = some v ∧ v ∈ allNumbersList) ∧
    (∀ j j', g j = g j' → j = j') := by
  have hperm := regionIsPerm_perm _ h
  have hlen9 : ((List.finRange 9).map g).length = 9 := by simp
  have hflen : (((List.finRange 9).map g).filterMap id).length = 9 := by
    rw [hperm.length_eq]
    rfl
  have hnone : none ∉ (List.finRange 9).map g := by
    intro hmem
    have := length_filterMap_lt_of_none _ hmem
    omega
  have hsome : ∀ j, ∃ v, g j = some v := by
    intro j
    cases hv : g j with
    | none =>
      exfalso
      apply hnone
      rw [← hv]
      exact List.mem_map_of_mem g (List.mem_finRange j)
    | some v => exact ⟨v, rfl⟩
  refine ⟨?_, ?_⟩
  · intro j
    obtain ⟨v, hv⟩ := hsome j
    refine ⟨v, hv, ?_⟩
    have hm : v ∈ ((List.finRange 9).map g).filterMap id :=
      List.mem_filterMap.mpr ⟨some v, by
        rw [← hv]; exact List.mem_map_of_mem g (List.mem_finRange j), rfl⟩
    exact hperm.mem_iff.mp hm
  · intro j j' hgj
    have hnodup_f : (((List.finRange 9).map g).filterMap id).Nodup :=
      hperm.nodup_iff.mpr (by decide)
    have hnodupl : ((List.finRange 9).map g).Nodup := by
      rw [eq_map_some_of_no_none _ hnone]
      exact hnodup_f.map (fun a b => Option.some.inj)
    exact List.inj_on_of_nodup_map hnodupl (List.mem_finRange j)
      (List.mem_finRange j') hgj

/-- Converse: digit-valued injective cells form a permutation region. -/
lemma region_perm_of (g : Fin 9 → Cell)
    (hvals : ∀ j, ∃ v, g j = some v ∧ v ∈ allNumbersList)
    (hinj : ∀ j j', g j = g j' → j = j') :
    regionIsPerm ((List.finRange 9).map g) = true := by
  unfold regionIsPerm
  rw [decide_eq_true_eq, Multiset.coe_eq_coe]
  have hnone : none ∉ (List.finRange 9).map g := by
    intro hmem
    obtain ⟨j, _, hj⟩ := List.mem_map.mp hmem
    obtain ⟨v, hv, _⟩ := hvals j
    rw [hv] at hj
    cases hj
  have hlnodup : ((List.finRange 9).map g).Nodup :=
    List.Nodup.map_on (fun x _ y _ hxy => hinj x y hxy) (List.nodup_finRange 9)
  have hfnodup : (((List.finRange 9).map g).filterMap id).Nodup := by
    have := eq_map_some_of_no_none _ hnone ▸ hlnodup
    exact List.Nodup.of_map some this
  have hsub : (((List.finRange 9).map g).filterMap id) ⊆ allNumbersList := by
    intro v hv
    obtain ⟨c, hc, hcv⟩ := List.mem_filterMap.mp hv
    obtain ⟨j, _, hj⟩ := List.mem_map.mp hc
    obtain ⟨w, hw, hwmem⟩ := hvals j
    rw [hw] at hj
    rw [← hj] at hcv
    cases hcv
    exact hwmem
  have hlen : (((List.finRange 9).map g).filterMap id).length = 9 := by
    have hcg := congrArg List.length (eq_map_some_of_no_none _ hnone)
    rw [List.length_map] at hcg
    simp only [List.length_map, List.length_finRange] at hcg
    omega
  exact (List.subperm_of_subset hfnodup hsub).perm_of_length_le (by rw [hlen]; rfl)

/-! ### Reading individual regions off validSolution -/

lemma validSolution_row (s : Sudoku) (h : validSolution s = true) (r : Fin 9) :
    regionIsPerm ((List.finRange 9).map (fun j => s r j)) = true := by
  unfold validSolution at h
  rw [List.all_eq_true] at h
  have hr := h r (List.mem_finRange r)
  rw [Bool.and_eq_true, Bool.and_eq_true] at hr
  exact hr.1.1

lemma validSolution_col (s : Sudoku) (h : validSolution s = true) (cj : Fin 9) :
    regionIsPerm ((List.finRange 9).map (fun i => s i cj)) = true := by
  unfold validSolution at h
  rw [List.all_eq_true] at h
  have hr := h cj (List.mem_finRange cj)
  rw [Bool.and_eq_true, Bool.and_eq_true] at hr
  exact hr.1.2

lemma getSubGridContents_congr (b : Sudoku) {c c' : Coord}
    (h : sameSub c c') :
    getSubGridContents b c = getSubGridContents b c' := by
  unfold getSubGridContents
  apply List.map_congr_left
  intro k _
  rw [subGridCoord_congr h k]

lemma validSolution_sub (s : Sudoku) (h : validSolution s = true) (c : Coord) :
    regionIsPerm ((List.finRange 9).map
      (fun k => s (subGridCoord c k).1 (subGridCoord c k).2)) = true := by
  have h1 := c.1.isLt
  have h2 := c.2.isLt
  unfold validSolution at h
  rw [List.all_eq_true] at h
  have hr := h ⟨c.1.val / 3 * 3 + c.2.val / 3, by omega⟩ (List.mem_finRange _)
  rw [Bool.and_eq_true, Bool.and_eq_true] at hr
  have hsubperm := hr.2
  have hsame : sameSub c
      ((⟨(⟨c.1.val / 3 * 3 + c.2.val / 3, by omega⟩ : Fin 9).val / 3 * 3,
          by omega⟩ : Fin 9),
       (⟨(⟨c.1.val / 3 * 3 + c.2.val / 3, by omega⟩ : Fin 9).val % 3 * 3,
          by omega⟩ : Fin 9)) := by
    show c.1.val / 3 = (c.1.val / 3 * 3 + c.2.val / 3) / 3 * 3 / 3 ∧
         c.2.val / 3 = (c.1.val / 3 * 3 + c.2.val / 3) % 3 * 3 / 3
    omega
  show regionIsPerm (getSubGridContents s c) = true
  rw [getSubGridContents_congr s hsame]
  exact hsubperm

lemma valid_cells (s : Sudoku) (h : validSolution s = true) (x : Coord) :
    ∃ v, s x.1 x.2 = some v ∧ v ∈ allNumbersList :=
  (region_ok _ (validSolution_row s h x.1)).1 x.2

lemma valid_distinct (s : Sudoku) (h : validSolution s = true) :
    ∀ x y : Coord, x ≠ y → sameRegion x y → s x.1 x.2 ≠ s y.1 y.2 := by
  intro x y hne hreg heq
  rcases hreg with hr | hc | hs
  · have hinj := (region_ok _ (validSolution_row s h x.1)).2
    rw [← hr] at heq
    exact hne (Prod.ext hr (hinj x.2 y.2 heq))
  · have hinj := (region_ok _ (validSolution_col s h x.2)).2
    rw [← hc] at heq
    exact hne (Prod.ext (hinj x.1 y.1 heq) hc)
  · have hinj := (region_ok _ (validSolution_sub s h x)).2
    have hx : subGridCoord x (subGridIdx x) = x := subGridCoord_self x
    have hy : subGridCoord x (subGridIdx y) = y := by
      rw [subGridCoord_congr hs (subGridIdx y)]
      exact subGridCoord_self y
    have hk : subGridIdx x = subGridIdx y := by
      apply hinj
      rw [hx, hy]
      exact heq
    apply hne
    rw [← hx, ← hy, hk]

/-! ### Occurrence of region values in the content lists -/

lemma mem_getRowContents (b : Sudoku) (c : Coord) {x : Cell} :
    x ∈ getRowContents b c ↔ ∃ j : Fin 9, b c.1 j = x := by
  unfold getRowContents
  rw [List.mem_map]
  constructor
  · rintro ⟨j, _, rfl⟩
    exact ⟨j, rfl⟩
  · rintro ⟨j, hj⟩
    exact ⟨j, List.mem_finRange j, hj⟩

lemma mem_getColumnContents (b : Sudoku) (c : Coord) {x : Cell} :
    x ∈ getColumnContents b c ↔ ∃ i : Fin 9, b i c.2 = x := by
  unfold getColumnContents transpose
  rw [List.mem_map]
  constructor
  · rintro ⟨i, _, rfl⟩
    exact ⟨i, rfl⟩
  · rintro ⟨i, hi⟩
    exact ⟨i, List.mem_finRange i, hi⟩

lemma mem_getSubGridContents (b : Sudoku) (c : Coord) {x : Cell} :
    x ∈ getSubGridContents b c ↔
      ∃ k : Fin 9, b (subGridCoord c k).1 (subGridCoord c k).2 = x := by
  unfold getSubGridContents
  rw [List.mem_map]
  constructor
  · rintro ⟨k, _, rfl⟩
    exact ⟨k, rfl⟩
  · rintro ⟨k, hk⟩
    exact ⟨k, List.mem_finRange k, hk⟩

/-- A candidate digit differs from every digit already present in the
cell's three regions. -/
lemma option_ne_region_value (b : Sudoku) (c : Coord) {o w : Nat}
    (ho : o ∈ getOptionsForCoord b c) (y : Coord) (hy : sameRegion c y)
    (hw : b y.1 y.2 = some w) : o ≠ w := by
  rintro rfl
  obtain ⟨_, hno⟩ := (mem_getOptionsForCoord b c o).mp ho
  apply hno
  rcases hy with hr | hcc | hs
  · exact Or.inl ((mem_getRowContents b c).mpr ⟨y.2, by rw [hr]; exact hw⟩)
  · refine Or.inr (Or.inl ((mem_getColumnContents b c).mpr ⟨y.1, ?_⟩))
    rw [hcc]
    exact hw
  · refine Or.inr (Or.inr ((mem_getSubGridContents b c).mpr
      ⟨subGridIdx y, ?_⟩))
    rw [subGridCoord_congr hs (subGridIdx y), subGridCoord_self y]
    exact hw

/-! ### Soundness of the backtracking search -/

lemma setCell_other' (b : Sudoku) (c : Coord) (v : Nat) {x : Coord}
    (hx : x ≠ c) : setCell b c v x.1 x.2 = b x.1 x.2 := by
  apply setCell_other
  rintro ⟨h1, h2⟩
  exact hx (Prod.ext h1 h2)

lemma sound_step (b : Sudoku) (c : Coord) (o : Nat)
    (hc : b c.1 c.2 = none) (ho : o ∈ getOptionsForCoord b c)
    {b' : Sudoku} (hS : SolveSound (setCell b c o) b') : SolveSound b b' := by
  obtain ⟨full, ext, vals, distinct⟩ := hS
  have hobounds : 1 ≤ o ∧ o ≤ 9 := ((mem_getOptionsForCoord b c o).mp ho).1
  have hbc' : b' c.1 c.2 = some o := by
    have h := ext c.1 c.2 (by rw [setCell_same]; exact Option.some_ne_none o)
    rw [h, setCell_same]
  have hext : Extends b b' := by
    intro i j hij
    have hxnec : ((i, j) : Coord) ≠ c := by
      rintro rfl
      exact hij hc
    have hset : setCell b c o i j = b i j := setCell_other' b c o hxnec
    rw [ext i j (by rw [hset]; exact hij), hset]
  have haux : ∀ y : Coord, y ≠ c → sameRegion c y →
      b' c.1 c.2 ≠ b' y.1 y.2 := by
    intro y hyne hreg
    by_cases hby : b y.1 y.2 = none
    · exact distinct c y (Ne.symm hyne) hreg
        (Or.inr (by rw [setCell_other' b c o hyne]; exact hby))
    · obtain ⟨w, hw⟩ := Option.ne_none_iff_exists'.mp hby
      rw [hbc', hext y.1 y.2 (by rw [hw]; exact Option.some_ne_none w), hw]
      intro hcontra
      exact option_ne_region_value b c ho y hreg hw (Option.some.inj hcontra)
  refine ⟨full, hext, ?_, ?_⟩
  · intro x hx
    by_cases hxc : x = c
    · subst hxc
      exact ⟨o, hbc', mem_allNumbersList o |>.mpr hobounds⟩
    · exact vals x (by rw [setCell_other' b c o hxc]; exact hx)
  · intro a x hax hreg _hemp
    by_cases hac : a = c
    · subst hac
      exact haux x (Ne.symm hax) hreg
    · by_cases hxc : x = c
      · subst hxc
        exact (haux a hac (sameRegion_symm hreg)).symm
      · apply distinct a x hax hreg
        rcases _hemp with h | h
        · exact Or.inl (by rw [setCell_other' b c o hac]; exact h)
        · exact Or.inr (by rw [setCell_other' b c o hxc]; exact h)

lemma tryOptions_sound (n : Nat) (b : Sudoku) (c : Coord)
    (hc : b c.1 c.2 = none)
    (ih : ∀ b₀ : Sudoku, (solveFuel n ⟨false, b₀⟩).solved = true →
      SolveSound b₀ (solveFuel n ⟨false, b₀⟩).board) :
    ∀ opts : List Nat, (∀ o ∈ opts, o ∈ getOptionsForCoord b c) →
      (tryOptions (solveFuel n) ⟨false, b⟩ c opts).solved = true →
      SolveSound b (tryOptions (solveFuel n) ⟨false, b⟩ c opts).board := by
  intro opts
  induction opts with
  | nil =>
    intro _ h
    simp [tryOptions] at h
  | cons o rest ihl =>
    intro hsub h
    simp only [tryOptions] at h ⊢
    cases hs : (solveFuel n ⟨false, setCell b c o⟩).solved with
    | true =>
      simp only [hs, if_true] at h ⊢
      exact sound_step b c o hc (hsub o (List.mem_cons_self o rest))
        (ih (setCell b c o) hs)
    | false =>
      simp only [hs, Bool.false_eq_true, if_false] at h ⊢
      exact ihl (fun o' ho' => hsub o' (List.mem_cons_of_mem o ho')) h

/-- Any successful run of the solver produces a full board that extends the
input, fills every originally-empty cell with a digit, and creates no
duplicate inside a region except possibly between two given cells. -/
lemma solveFuel_sound :
    ∀ (n : Nat) (b : Sudoku), (solveFuel n ⟨false, b⟩).solved = true →
      SolveSound b (solveFuel n ⟨false, b⟩).board := by
  intro n
  induction n with
  | zero =>
    intro b h
    simp [solveFuel] at h
  | succ n ih =>
    intro b h
    simp only [solveFuel] at h ⊢
    cases hc : getNextEmptyCoord b with
    | none =>
      simp only [hc] at h ⊢
      have hfull := (getNextEmptyCoord_eq_none_iff b).mp hc
      exact ⟨hfull, fun _ _ _ => rfl,
        fun x hx => absurd hx (hfull x),
        fun a x _ _ hemp => by
          rcases hemp with h' | h'
          · exact absurd h' (hfull a)
          · exact absurd h' (hfull x)⟩
    | some c =>
      simp only [hc] at h ⊢
      exact tryOptions_sound n b c (getNextEmptyCoord_some_empty b c hc) ih
        (getOptionsForCoord b c) (fun _ ho => ho) h

/-! ### Claim C6: duplicated digit in a row makes the search fail -/

/-- Claim C6.  A board holding the same digit at two different columns of
one row, with every other cell empty, is reported unsolvable: were the
search to succeed, the completed board would hold the digit at most once
per column (at most 9 occurrences in total) yet at least once in each of
the eight untouched rows plus twice in the duplicated row (at least 10). -/
theorem sudoku_C6 (d : Nat) (r c1 c2 : Fin 9) (b : Sudoku)
    (hd : 1 ≤ d ∧ d ≤ 9) (hne : c1 ≠ c2)
    (hb : ∀ i j : Fin 9, b i j =
      if i = r ∧ (j = c1 ∨ j = c2) then some d else none) :
    (solve ⟨false, b⟩).solved = false := by
  by_contra hcon
  rw [Bool.not_eq_false] at hcon
  obtain ⟨full, ext, vals, distinct⟩ := solveFuel_sound 82 b hcon
  set b' := (solveFuel 82 (⟨false, b⟩ : Game)).board with hb'def
  have hbr1 : b r c1 = some d := by rw [hb]; simp
  have hbr2 : b r c2 = some d := by rw [hb]; simp
  have hbother : ∀ i j : Fin 9, ¬(i = r ∧ (j = c1 ∨ j = c2)) → b i j = none := by
    intro i j hij
    rw [hb i j, if_neg hij]
  have h1 : b' r c1 = some d := by
    rw [ext r c1 (by rw [hbr1]; exact Option.some_ne_none d), hbr1]
  have h2 : b' r c2 = some d := by
    rw [ext r c2 (by rw [hbr2]; exact Option.some_ne_none d), hbr2]
  have hcol : ∀ (j i i' : Fin 9), i ≠ i' → b' i j ≠ b' i' j := by
    intro j i i' hii
    apply distinct (i, j) (i', j)
      (fun h => hii (congrArg Prod.fst h)) (Or.inr (Or.inl rfl))
    by_cases hir : i = r
    · have hir' : i' ≠ r := fun h => hii (hir.trans h.symm)
      exact Or.inr (hbother i' j (fun hco => hir' hco.1))
    · exact Or.inl (hbother i j (fun hco => hir hco.1))
  have hrow : ∀ (i : Fin 9), i ≠ r → ∀ j j' : Fin 9, j ≠ j' →
      b' i j ≠ b' i j' := by
    intro i hir j j' hjj
    apply distinct (i, j) (i, j')
      (fun h => hjj (congrArg Prod.snd h)) (Or.inl rfl)
    exact Or.inl (hbother i j (fun hco => hir hco.1))
  have hrowd : ∀ i : Fin 9, i ≠ r → ∃ j, b' i j = some d := by
    intro i hir
    have hperm := region_perm_of (fun j => b' i j)
      (fun j => vals (i, j) (hbother i j (fun hco => hir hco.1)))
      (fun j j' hg => by
        by_contra hjj
        exact hrow i hir j j' hjj hg)
    have hpermL := regionIsPerm_perm _ hperm
    have hdmem : d ∈ ((List.finRange 9).map (fun j => b' i j)).filterMap id :=
      hpermL.mem_iff.mpr ((mem_allNumbersList d).mpr hd)
    obtain ⟨x, hx, hxd⟩ := List.mem_filterMap.mp hdmem
    obtain ⟨j, _, hj⟩ := List.mem_map.mp hx
    exact ⟨j, by rw [hj]; exact hxd⟩
  set S : Finset Coord := Finset.univ.filter (fun x : Coord => b' x.1 x.2 = some d)
    with hSdef
  have hub : S.card ≤ 9 := by
    have hinj : Set.InjOn (fun x : Coord => x.2) S := by
      intro x hx y hy hxy
      rw [Finset.mem_coe, hSdef, Finset.mem_filter] at hx hy
      by_contra hxyne
      have hfst : x.1 ≠ y.1 := by
        intro h
        exact hxyne (Prod.ext h hxy)
      apply hcol x.2 x.1 y.1 hfst
      rw [hx.2]
      rw [show (x.2 : Fin 9) = y.2 from hxy] at hx ⊢
      rw [hy.2]
    calc S.card ≤ (Finset.univ : Finset (Fin 9)).card :=
          Finset.card_le_card_of_injOn _ (fun _ _ => Finset.mem_univ _) hinj
      _ = 9 := by simp
  have hfib : S.card = ∑ i : Fin 9, (S.filter (fun x : Coord => x.1 = i)).card :=
    Finset.card_eq_sum_card_fiberwise (fun x _ => Finset.mem_univ x.1)
  have hperrow : ∀ i : Fin 9,
      (if i = r then 2 else 1) ≤ (S.filter (fun x : Coord => x.1 = i)).card := by
    intro i
    by_cases hir : i = r
    · subst hir
      rw [if_pos rfl]
      have hsubset : ({(i, c1), (i, c2)} : Finset Coord) ⊆
          S.filter (fun x : Coord => x.1 = i) := by
        intro z hz
        rw [Finset.mem_insert, Finset.mem_singleton] at hz
        rw [Finset.mem_filter, hSdef, Finset.mem_filter]
        rcases hz with rfl | rfl
        · exact ⟨⟨Finset.mem_univ _, h1⟩, rfl⟩
        · exact ⟨⟨Finset.mem_univ _, h2⟩, rfl⟩
      calc 2 = ({(i, c1), (i, c2)} : Finset Coord).card := by
            rw [Finset.card_insert_of_not_mem (by simp [hne]),
              Finset.card_singleton]
        _ ≤ _ := Finset.card_le_card hsubset
    · rw [if_neg hir]
      obtain ⟨j, hj⟩ := hrowd i hir
      refine Finset.card_pos.mpr ⟨(i, j), ?_⟩
      rw [Finset.mem_filter, hSdef, Finset.mem_filter]
      exact ⟨⟨Finset.mem_univ _, hj⟩, rfl⟩
  have hlb : 10 ≤ S.card := by
    rw [hfib]
    calc (10 : Nat) = ∑ i : Fin 9, (1 + if i = r then 1 else 0) := by
          rw [Finset.sum_add_distrib]
          rw [Finset.sum_ite_eq' Finset.univ r (fun _ => 1)]
          simp
      _ = ∑ i : Fin 9, (if i = r then 2 else 1) := by
          apply Finset.sum_congr rfl
          intro i _
          by_cases hir : i = r <;> simp [hir]
      _ ≤ _ := Finset.sum_le_sum (fun i _ => hperrow i)
  omega

/-- Witness for C6: the board with two 5s in row 0 at columns 0 and 1 and
all other cells empty is unsolvable. -/
theorem sudoku_C6_witness : (solve ⟨false, twoFives⟩).solved = false :=
  sudoku_C6 5 0 0 1 twoFives (by decide) (by decide) (fun _ _ => rfl)

/-! ### Completeness of the backtracking search -/

lemma tryOptions_complete (f : Game → Game) (g : Game) (c : Coord)
    (opts : List Nat)
    (h : ∃ o ∈ opts, (f ⟨false, setCell g.board c o⟩).solved = true) :
    (tryOptions f g c opts).solved = true := by
  induction opts with
  | nil =>
    obtain ⟨o, ho, _⟩ := h
    cases ho
  | cons o rest ih =>
    simp only [tryOptions]
    cases hs : (f ⟨false, setCell g.board c o⟩).solved with
    | true => simp [hs]
    | false =>
      simp only [hs, Bool.false_eq_true, if_false]
      apply ih
      obtain ⟨o', ho', hsolved⟩ := h
      rcases List.mem_cons.mp ho' with rfl | hmem
      · rw [hs] at hsolved
        cases hsolved
      · exact ⟨o', hmem, hsolved⟩

/-- The next empty cell's value in any valid completion is a legal candidate
of the current board. -/
lemma solution_value_is_option (b : Sudoku) (c : Coord)
    (hcempty : b c.1 c.2 = none) (s : Sudoku) (hs : validSolution s = true)
    (hext : Extends b s) {v : Nat} (hv : s c.1 c.2 = some v)
    (hvmem : v ∈ allNumbersList) :
    v ∈ getOptionsForCoord b c := by
  rw [mem_getOptionsForCoord]
  refine ⟨(mem_allNumbersList v).mp hvmem, ?_⟩
  rintro (hm | hm | hm)
  · obtain ⟨j, hj⟩ := (mem_getRowContents b c).mp hm
    have hj2 : j ≠ c.2 := by
      rintro rfl
      rw [hcempty] at hj
      cases hj
    have hsj : s c.1 j = some v := by
      rw [hext c.1 j (by rw [hj]; exact Option.some_ne_none v), hj]
    apply valid_distinct s hs (c.1, j) c
      (fun h => hj2 (congrArg Prod.snd h)) (Or.inl rfl)
    rw [hsj, hv]
  · obtain ⟨i, hi⟩ := (mem_getColumnContents b c).mp hm
    have hi2 : i ≠ c.1 := by
      rintro rfl
      rw [hcempty] at hi
      cases hi
    have hsi : s i c.2 = some v := by
      rw [hext i c.2 (by rw [hi]; exact Option.some_ne_none v), hi]
    apply valid_distinct s hs (i, c.2) c
      (fun h => hi2 (congrArg Prod.fst h)) (Or.inr (Or.inl rfl))
    rw [hsi, hv]
  · obtain ⟨k, hk⟩ := (mem_getSubGridContents b c).mp hm
    have hk2 : subGridCoord c k ≠ c := by
      intro heq
      rw [heq, hcempty] at hk
      cases hk
    have hsk : s (subGridCoord c k).1 (subGridCoord c k).2 = some v := by
      rw [hext _ _ (by rw [hk]; exact Option.some_ne_none v), hk]
    apply valid_distinct s hs (subGridCoord c k) c hk2
      (Or.inr (Or.inr (sameSub_subGridCoord c k)))
    rw [hsk, hv]

/-- If the input board admits a valid completion, the search succeeds. -/
lemma solveFuel_complete :
    ∀ (n : Nat) (b : Sudoku), emptyCount b < n →
      (∃ s : Sudoku, validSolution s = true ∧ Extends b s) →
      (solveFuel n ⟨false, b⟩).solved = true := by
  intro n
  induction n with
  | zero =>
    intro b h _
    omega
  | succ n ih =>
    intro b hcount hsol
    obtain ⟨s, hs, hext⟩ := hsol
    simp only [solveFuel]
    cases hc : getNextEmptyCoord b with
    | none => simp only [hc]
    | some c =>
      simp only [hc]
      have hcempty : b c.1 c.2 = none := getNextEmptyCoord_some_empty b c hc
      obtain ⟨v, hv, hvmem⟩ := valid_cells s hs c
      have hvopt : v ∈ getOptionsForCoord b c :=
        solution_value_is_option b c hcempty s hs hext hv hvmem
      apply tryOptions_complete
      refine ⟨v, hvopt, ?_⟩
      show (solveFuel n ⟨false, setCell b c v⟩).solved = true
      apply ih
      · have := emptyCount_setCell_lt b c v hcempty
        omega
      · refine ⟨s, hs, ?_⟩
        intro i j hij
        by_cases hxc : ((i, j) : Coord) = c
        · have hcomp : i = c.1 ∧ j = c.2 :=
            ⟨congrArg Prod.fst hxc, congrArg Prod.snd hxc⟩
          rw [setCell, if_pos hcomp, hcomp.1, hcomp.2, hv]
        · rw [setCell_other' b c v hxc]
          apply hext
          rw [setCell_other' b c v hxc] at hij
          exact hij

/-! ### Validity of the produced solution -/

lemma sub_region_perm_of (b' : Sudoku)
    (hvals : ∀ x : Coord, ∃ v, b' x.1 x.2 = some v ∧ v ∈ allNumbersList)
    (hdist : ∀ x y : Coord, x ≠ y → sameRegion x y →
      b' x.1 x.2 ≠ b' y.1 y.2) (c : Coord) :
    regionIsPerm (getSubGridContents b' c) = true := by
  show regionIsPerm ((List.finRange 9).map
    (fun k => b' (subGridCoord c k).1 (subGridCoord c k).2)) = true
  apply region_perm_of
  · intro k
    exact hvals (subGridCoord c k)
  · intro k k' hg
    by_contra hkk
    refine hdist (subGridCoord c k) (subGridCoord c k')
      (fun h => hkk (subGridCoord_inj c h)) ?_ hg
    have ha := sameSub_subGridCoord c k
    have hb := sameSub_subGridCoord c k'
    exact Or.inr (Or.inr ⟨ha.1.trans hb.1.symm, ha.2.trans hb.2.symm⟩)

lemma validSolution_of (b' : Sudoku)
    (hvals : ∀ x : Coord, ∃ v, b' x.1 x.2 = some v ∧ v ∈ allNumbersList)
    (hdist : ∀ x y : Coord, x ≠ y → sameRegion x y →
      b' x.1 x.2 ≠ b' y.1 y.2) :
    validSolution b' = true := by
  unfold validSolution
  rw [List.all_eq_true]
  intro i _
  rw [Bool.and_eq_true, Bool.and_eq_true]
  refine ⟨⟨?_, ?_⟩, ?_⟩
  · apply region_perm_of (fun j => b' i j)
    · exact fun j => hvals (i, j)
    · intro j j' hg
      by_contra hjj
      exact hdist (i, j) (i, j')
        (fun h => hjj (congrArg Prod.snd h)) (Or.inl rfl) hg
  · apply region_perm_of (fun k => b' k i)
    · exact fun k => hvals (k, i)
    · intro k k' hg
      by_contra hkk
      exact hdist (k, i) (k', i)
        (fun h => hkk (congrArg Prod.fst h)) (Or.inr (Or.inl rfl)) hg
  · exact sub_region_perm_of b' hvals hdist _

lemma regionIsPerm_toFinset (l : List Cell) (h : regionIsPerm l = true)
    (hn : none ∉ l) : l.toFinset = ALL_CELLS := by
  have hperm := regionIsPerm_perm l h
  have hmap : ((l.filterMap id).map some).Perm (allNumbersList.map some) :=
    hperm.map some
  rw [eq_map_some_of_no_none l hn]
  ext x
  rw [List.mem_toFinset, hmap.mem_iff]
  unfold ALL_CELLS
  rw [List.mem_toFinset]

/-- A valid complete solution passes `checkFullBoard` (the converse fails:
see C1). -/
lemma checkFullBoard_of_valid (b : Sudoku) (h : validSolution b = true) :
    checkFullBoard b = true := by
  have hfull : ∀ c : Coord, b c.1 c.2 ≠ none := by
    intro c
    obtain ⟨v, hv, _⟩ := valid_cells b h c
    rw [hv]
    exact Option.some_ne_none v
  have hnone : getNextEmptyCoord b = none :=
    (getNextEmptyCoord_eq_none_iff b).mpr hfull
  unfold checkFullBoard
  rw [hnone]
  rw [List.all_eq_true]
  intro i _
  have hrowT : (getRowContents b (i, 0)).toFinset = ALL_CELLS := by
    apply regionIsPerm_toFinset _ (validSolution_row b h i)
    intro hmem
    obtain ⟨j, hj⟩ := (mem_getRowContents b (i, 0)).mp hmem
    exact hfull (i, j) hj
  have hcolT : (getColumnContents b (0, i)).toFinset = ALL_CELLS := by
    apply regionIsPerm_toFinset _ (validSolution_col b h i)
    intro hmem
    obtain ⟨k, hk⟩ := (mem_getColumnContents b (0, i)).mp hmem
    exact hfull (k, i) hk
  have hsubT : ∀ c : Coord, (getSubGridContents b c).toFinset = ALL_CELLS := by
    intro c
    apply regionIsPerm_toFinset _ (validSolution_sub b h c)
    intro hmem
    obtain ⟨k, hk⟩ := (mem_getSubGridContents b c).mp hmem
    exact hfull (subGridCoord c k) hk
  simp only [hrowT, hcolT, hsubT, Finset.inter_self]
  decide

/-- Claim C3.  For every solvable board — one admitting a valid completion —
the solver succeeds, its output passes `checkFullBoard`, and every
originally-filled cell is unchanged in the output. -/
theorem sudoku_C3 (b : Sudoku)
    (h : ∃ s : Sudoku, validSolution s = true ∧ Extends b s) :
    (solve ⟨false, b⟩).solved = true ∧
    checkFullBoard (solve ⟨false, b⟩).board = true ∧
    Extends b (solve ⟨false, b⟩).board := by
  have hcount : emptyCount b < 82 :=
    lt_of_le_of_lt (emptyCount_le_81 b) (by omega)
  have hsolved : (solveFuel 82 ⟨false, b⟩).solved = true :=
    solveFuel_complete 82 b hcount h
  obtain ⟨full, ext, vals, distinct⟩ := solveFuel_sound 82 b hsolved
  obtain ⟨s, hs, hext⟩ := h
  have hsb : ∀ (x : Coord) (w : Nat), b x.1 x.2 = some w → s x.1 x.2 = some w := by
    intro x w hw
    rw [hext x.1 x.2 (by rw [hw]; exact Option.some_ne_none w), hw]
  have hvalid : validSolution (solveFuel 82 (⟨false, b⟩ : Game)).board = true := by
    apply validSolution_of
    · intro x
      by_cases hx : b x.1 x.2 = none
      · exact vals x hx
      · obtain ⟨w, hw⟩ := Option.ne_none_iff_exists'.mp hx
        have hsx : s x.1 x.2 = some w := hsb x w hw
        obtain ⟨u, hu, hum⟩ := valid_cells s hs x
        rw [hu] at hsx
        have huw : u = w := Option.some.inj hsx
        refine ⟨w, ?_, huw ▸ hum⟩
        rw [ext x.1 x.2 hx, hw]
    · intro x y hxy hreg
      by_cases hex : b x.1 x.2 = none ∨ b y.1 y.2 = none
      · exact distinct x y hxy hreg hex
      · push_neg at hex
        obtain ⟨hx, hy⟩ := hex
        rw [ext x.1 x.2 hx, ext y.1 y.2 hy]
        obtain ⟨w, hw⟩ := Option.ne_none_iff_exists'.mp hx
        obtain ⟨u, hu⟩ := Option.ne_none_iff_exists'.mp hy
        rw [hw, hu, ← hsb x w hw, ← hsb y u hu]
        exact valid_distinct s hs x y hxy hreg
  exact ⟨hsolved, checkFullBoard_of_valid _ hvalid, ext⟩

/-- Witness for C3: the canonical solution with cell (0,0) blanked is
solvable (the canonical solution completes it), so the solver succeeds on
it, its output validates, and the 80 given cells are preserved. -/
theorem sudoku_C3_witness :
    (solve ⟨false, canonicalMinus⟩).solved = true ∧
    checkFullBoard (solve ⟨false, canonicalMinus⟩).board = true ∧
    Extends canonicalMinus (solve ⟨false, canonicalMinus⟩).board :=
  sudoku_C3 canonicalMinus ⟨canonical, by decide, by decide⟩

end SudokuTS
